import Mathlib

/- Verification of the google-takeout-exif-applier repository: a shallow
embedding, in Lean 4, of the sidecar-resolution algorithm
(internal/processor/processor.go), the metadata record model and merge logic
(internal/metadata), the applier dispatch tables, and the per-file processing
state transitions, together with theorems settling the specification claims.

Paths and file names are modelled as `List Char`.  Go `float64` coordinate
values are modelled as `ℚ`: the merge and lookup logic only ever compares
coordinates against zero and copies them, JSON decoding cannot produce NaN,
and IEEE `-0.0 == 0.0` agrees with `ℚ` where `-0 = 0`. -/

namespace GTakeout

/-- Boolean prefix test on character lists, as Go byte-wise comparison
(strings.HasPrefix / the prefix comparison inside strings.Index). -/
def leadsWith : List Char → List Char → Bool
  | [], _ => true
  | _ :: _, [] => false
  | a :: as, b :: bs => a == b && leadsWith as bs

/-- Go `strings.Replace(s, old, "", 1)`: remove the first occurrence of
`old` from `s` (no change when `old` does not occur). -/
def replaceFirst (s old : List Char) : List Char :=
  match s with
  | [] => []
  | c :: cs =>
    if leadsWith old (c :: cs) then (c :: cs).drop old.length
    else c :: replaceFirst cs old

/-- Go `strings.LastIndex(mediaPath, "\\")` followed by the slicing
`mediaPath[:idx+1]` / `mediaPath[idx+1:]` in checkSupplementalData:
`some (d, s)` splits `p` as `d ++ s` where `d` ends with the last
backslash of `p`; `none` when `p` contains no backslash (idx == -1). -/
def splitAtLastSep (p : List Char) : Option (List Char × List Char) :=
  match p with
  | [] => none
  | c :: cs =>
    match splitAtLastSep cs with
    | some (d, s) => some (c :: d, s)
    | none => if c = '\\' then some ([c], cs) else none

/-- One attempt of the regex `\(\d+\)` anchored at the head of the list:
an opening parenthesis, one or more digits (greedy; no backtracking can
succeed where the greedy parse fails for this pattern), and a closing
parenthesis.  Returns the matched run and the remaining characters. -/
def matchDupRun (s : List Char) : Option (List Char × List Char) :=
  match s with
  | [] => none
  | c :: rest =>
    if c = '(' then
      match rest.dropWhile Char.isDigit with
      | [] => none
      | c2 :: tail =>
        if c2 = ')' then
          if rest.takeWhile Char.isDigit = [] then none
          else some ('(' :: (rest.takeWhile Char.isDigit ++ [')']), tail)
        else none
    else none

/-- Fuel-indexed scan for `regexp.MustCompile(String.mk ['\\', '(', '\\', 'd', '+', '\\', ')']).FindAllString(s, -1)`:
leftmost, non-overlapping matches of the parenthesized-integer pattern.
Each step consumes at least one character, so fuel `s.length` is enough. -/
def findDupRunsF : Nat → List Char → List (List Char)
  | 0, _ => []
  | _ + 1, [] => []
  | n + 1, c :: cs =>
    match matchDupRun (c :: cs) with
    | some (m, t) => m :: findDupRunsF n t
    | none => findDupRunsF n cs

/-- All parenthesized-integer runs of `s`, leftmost first, non-overlapping. -/
def findDupRuns (s : List Char) : List (List Char) := findDupRunsF s.length s

/-- Lines 179-200 of processor.go (checkSupplementalData, step 2): duplicate
suffix normalization.  Returns `(newMediaPath, match)`.  The code looks for
the last backslash; when there is none (`idx == -1`) the regex is never run,
`match` stays empty and the path is unchanged.  When the substring after the
last backslash contains exactly one `(digits)` run, that run's first literal
occurrence is removed from the file name and remembered in `match`. -/
def dupNormalize (p : List Char) : List Char × List Char :=
  match splitAtLastSep p with
  | none => (p, [])
  | some (d, seg) =>
    match findDupRuns seg with
    | [m] => (d ++ replaceFirst seg m, m)
    | _ => (p, [])

/-- Windows path separators, as Go `os.IsPathSeparator` (filepath on the
platform this repository targets: build.bat builds a Windows executable). -/
def isPathSep (c : Char) : Bool := c = '\\' || c = '/'

/-- Go `filepath.Ext`: the suffix of the final path element starting at its
last dot, or empty when the final element has no dot. -/
def pathExt (p : List Char) : List Char :=
  let seg := p.reverse.takeWhile (fun c => !isPathSep c)
  if seg.contains '.' then ((seg.takeWhile (fun c => c ≠ '.')) ++ ['.']).reverse
  else []

/-- Go `strings.TrimSuffix`: drop `suf` from the end of `s` when present. -/
def trimSuffix (s suf : List Char) : List Char :=
  if leadsWith suf.reverse s.reverse then s.take (s.length - suf.length) else s

/-- Step 1 of checkSupplementalData (lines 168-171 of processor.go):
`strings.TrimSuffix(mediaPath, ext) + String.mk ['.', 'j', 's', 'o', 'n']`. -/
def extSwapPath (p : List Char) : List Char :=
  trimSuffix p (pathExt p) ++ ".json".toList

/-- The jsonSuffixes array of processor.go lines 202-225, in source order:
the empty suffix comes FIRST, followed by `.supplemental-metadata` and each
one-character-shorter truncation of it down to `.s`. -/
def jsonSuffixes : List (List Char) :=
  [ "",
    ".supplemental-metadata",
    ".supplemental-metadat",
    ".supplemental-metada",
    ".supplemental-metad",
    ".supplemental-meta",
    ".supplemental-met",
    ".supplemental-me",
    ".supplemental-m",
    ".supplemental-",
    ".supplemental",
    ".supplementa",
    ".supplement",
    ".supplemen",
    ".suppleme",
    ".supplem",
    ".supple",
    ".suppl",
    ".supp",
    ".sup",
    ".su",
    ".s" ].map String.toList

/-- The full literal suffix `.supplemental-metadata` (22 characters). -/
def supMetaSuffix : List Char := ".supplemental-metadata".toList

/-- Modelled from the claim's words, for comparison with `jsonSuffixes`:
the full literal suffix followed by every one-character-shorter truncation
of it down to two characters (`.s`). -/
def claimTruncations : List (List Char) :=
  (List.range 21).map (fun i => supMetaSuffix.take (supMetaSuffix.length - i))

/-- Modelled from the claim's words: the suffix order the claim asserts,
longest to shortest with the empty suffix last. -/
def claimSuffixOrder : List (List Char) := claimTruncations ++ [[]]

/-- Outcome of one `os.Stat` call: success (with the IsDir bit of the
returned FileInfo), a does-not-exist error, or any other error. -/
inductive StatOut
  | found (isDir : Bool)
  | notExist
  | errOther
deriving DecidableEq

/-- Outcome of checkSupplementalData: the first probed path whose Stat
succeeded, or the last probed path with the kind of its Stat error
(the function returns the error of the last executed Stat). -/
inductive ResolveOut
  | found (path : List Char) (isDir : Bool)
  | noFile (lastPath : List Char)
  | statErr (lastPath : List Char)
deriving DecidableEq

/-- The ordered list of candidate sidecar paths checkSupplementalData
probes when no early return fires: the extension-swap path, then for each
entry of `jsonSuffixes` the normalized path with the removed duplicate
marker re-inserted before `.json` (step 3, lines 227-243), then for each
entry the original path with `.json` (step 4, lines 249-262). -/
def probePaths (p : List Char) : List (List Char) :=
  extSwapPath p ::
    (jsonSuffixes.map
        (fun suf => (dupNormalize p).1 ++ suf ++ (dupNormalize p).2 ++ ".json".toList) ++
      jsonSuffixes.map (fun suf => p ++ suf ++ ".json".toList))

/-- One iteration of the probing loop: a successful Stat returns at once;
a failed Stat on the last candidate classifies its error (the loop's final
`return info, jsonPath, err` returns the error of the last executed Stat);
a failed Stat with candidates remaining defers to the rest of the loop. -/
def probeStep (q : List Char) (s : StatOut) (isLast : Bool)
    (rec : ResolveOut × List (List Char)) : ResolveOut × List (List Char) :=
  match s with
  | .found d => (.found q d, [q])
  | s =>
    if isLast then (if s = StatOut.notExist then .noFile q else .statErr q, [q])
    else (rec.1, q :: rec.2)

/-- Sequential probing: Stat each path in order and return on the first
success; otherwise classify the error of the last Stat executed.  The
second component is the list of paths actually probed, in order. -/
def probeSeq (stat : List Char → StatOut) : List (List Char) → ResolveOut × List (List Char)
  | [] => (.noFile [], [])
  | q :: qs => probeStep q (stat q) qs.isEmpty (probeSeq stat qs)

/-- checkSupplementalData of processor.go (lines 162-265), as a pure
function of an injected Stat capability: probe `probePaths` in order,
first existing path wins; instrumented with the trace of probed paths. -/
def checkSupplementalData (stat : List Char → StatOut) (p : List Char) :
    ResolveOut × List (List Char) :=
  probeSeq stat (probePaths p)

/-- CreationTime struct of internal/metadata (a string-encoded timestamp). -/
structure CreationTime where
  timestamp : String
deriving DecidableEq

/-- ModificationTime struct of internal/metadata. -/
structure ModificationTime where
  timestamp : String
deriving DecidableEq

/-- PhotoTakenTime struct of internal/metadata. -/
structure PhotoTakenTime where
  timestamp : String
deriving DecidableEq

/-- GeoData struct of internal/metadata (float64 fields modelled as ℚ). -/
structure GeoData where
  latitude : ℚ
  longitude : ℚ
  altitude : ℚ
  latitudeSpan : ℚ
  longitudeSpan : ℚ
deriving DecidableEq

/-- GeoDataAlt struct of internal/metadata, a distinct type with the same
shape as GeoData, exactly as in the source. -/
structure GeoDataAlt where
  latitude : ℚ
  longitude : ℚ
  altitude : ℚ
  latitudeSpan : ℚ
  longitudeSpan : ℚ
deriving DecidableEq

/-- The Metadata struct of internal/metadata, fields in source order.  The
`Supplemental *Metadata` field is omitted: it is declared in the Go struct
but never read or assigned anywhere in the repository, and a structure
cannot mention itself in Lean. -/
structure Metadata where
  title : String
  description : String
  imageViews : Int
  creationTime : CreationTime
  modificationTime : ModificationTime
  geoData : GeoData
  geoDataAlt : GeoDataAlt
  photoTakenTime : PhotoTakenTime
deriving DecidableEq

/-- mergeMetadata of internal/metadata (lines 178-207).  The Go function
applies its conditional assignments in sequence on a value copy of
`primary`; every condition reads only fields that no earlier assignment in
the sequence modifies, so the simultaneous record update below is the same
function.  Note: ModificationTime is never merged, and each GPS fix is
replaced as a whole struct under a condition that reads only its latitude
and longitude. -/
def mergeMetadata (primary supplemental : Metadata) : Metadata :=
  { primary with
    title :=
      if primary.title = "" ∧ supplemental.title ≠ "" then supplemental.title
      else primary.title,
    description :=
      if primary.description = "" ∧ supplemental.description ≠ "" then
        supplemental.description
      else primary.description,
    imageViews :=
      if primary.imageViews = 0 ∧ supplemental.imageViews > 0 then
        supplemental.imageViews
      else primary.imageViews,
    creationTime :=
      if primary.creationTime.timestamp = "" ∧ supplemental.creationTime.timestamp ≠ "" then
        supplemental.creationTime
      else primary.creationTime,
    photoTakenTime :=
      if primary.photoTakenTime.timestamp = "" ∧ supplemental.photoTakenTime.timestamp ≠ "" then
        supplemental.photoTakenTime
      else primary.photoTakenTime,
    geoData :=
      if (primary.geoData.latitude = 0 ∧ primary.geoData.longitude = 0) ∧
          (supplemental.geoData.latitude ≠ 0 ∨ supplemental.geoData.longitude ≠ 0) then
        supplemental.geoData
      else primary.geoData,
    geoDataAlt :=
      if (primary.geoDataAlt.latitude = 0 ∧ primary.geoDataAlt.longitude = 0) ∧
          (supplemental.geoDataAlt.latitude ≠ 0 ∨ supplemental.geoDataAlt.longitude ≠ 0) then
        supplemental.geoDataAlt
      else primary.geoDataAlt }

/-- GetLatitude of internal/metadata (lines 145-153): the primary fix's
latitude when non-zero, else the alternate fix's latitude when non-zero,
else `(0, false)`. -/
def Metadata.GetLatitude (m : Metadata) : ℚ × Bool :=
  if m.geoData.latitude ≠ 0 then (m.geoData.latitude, true)
  else if m.geoDataAlt.latitude ≠ 0 then (m.geoDataAlt.latitude, true)
  else (0, false)

/-- GetLongitude of internal/metadata (lines 156-164). -/
def Metadata.GetLongitude (m : Metadata) : ℚ × Bool :=
  if m.geoData.longitude ≠ 0 then (m.geoData.longitude, true)
  else if m.geoDataAlt.longitude ≠ 0 then (m.geoDataAlt.longitude, true)
  else (0, false)

/-- GetAltitude of internal/metadata (lines 167-175). -/
def Metadata.GetAltitude (m : Metadata) : ℚ × Bool :=
  if m.geoData.altitude ≠ 0 then (m.geoData.altitude, true)
  else if m.geoDataAlt.altitude ≠ 0 then (m.geoDataAlt.altitude, true)
  else (0, false)

/-- Go whitespace characters skipped by an fmt scanning verb. -/
def isGoSpace (c : Char) : Bool :=
  c = ' ' || c = '\t' || c = '\n' || c = '\x0d' || c = '\x0b' || c = '\x0c'

/-- An optional leading sign, as the fmt scanner consumes it. -/
def scanSign : List Char → Bool × List Char
  | '-' :: r => (true, r)
  | '+' :: r => (false, r)
  | r => (false, r)

/-- Decimal value of a digit list. -/
def digitsToNat (ds : List Char) : Nat :=
  ds.foldl (fun a c => a * 10 + (c.toNat - '0'.toNat)) 0

/-- Go `fmt.Sscanf(ts, String.mk ['%', 'd'], &unixTime)` into an int64:
skip leading white space, an optional sign, then one or more decimal
digits (trailing non-digit input is left unconsumed and is not an error);
`none` when no digit is found or the value overflows int64. -/
def scanInt64 (s : List Char) : Option Int :=
  let s1 := s.dropWhile isGoSpace
  let sg := scanSign s1
  let ds := sg.2.takeWhile Char.isDigit
  if ds = [] then none
  else
    let v : Int := if sg.1 then -(digitsToNat ds : Int) else (digitsToNat ds : Int)
    if -(2 ^ 63 : Int) ≤ v ∧ v < 2 ^ 63 then some v else none

/-- Errors of the timestamp accessors, mirroring the two fmt.Errorf sites:
the parse failure of parseTimestamp and the no-timestamp failure of
GetPhotoTime. -/
inductive TimeErr
  | invalidTimestamp
  | noTimestamp
deriving DecidableEq

/-- parseTimestamp of internal/metadata (lines 210-219).  The resulting
`time.Unix(unixTime, 0).UTC()` instant is modelled by its Unix-epoch
seconds value. -/
def parseTimestamp (ts : String) : Except TimeErr Int :=
  match scanInt64 ts.toList with
  | some v => .ok v
  | none => .error .invalidTimestamp

/-- GetPhotoTime of internal/metadata (lines 132-142): parse the
photo-taken timestamp when the field is non-empty, else the creation
timestamp when non-empty, else fail. -/
def Metadata.GetPhotoTime (m : Metadata) : Except TimeErr Int :=
  if m.photoTakenTime.timestamp ≠ "" then parseTimestamp m.photoTakenTime.timestamp
  else if m.creationTime.timestamp ≠ "" then parseTimestamp m.creationTime.timestamp
  else .error .noTimestamp

/-- ASCII lower-casing of one character, the fragment of strings.ToLower
relevant to the ASCII-only extension tables: a non-ASCII character can
never map into those tables under either function, so membership results
agree with Go. -/
def toLowerAscii (c : Char) : Char :=
  if 'A' ≤ c ∧ c ≤ 'Z' then Char.ofNat (c.toNat + 32) else c

/-- `strings.ToLower(filepath.Ext(path))`, as computed at the top of
isSupportedMediaFile, isImageFile and isVideoFile. -/
def lowerExt (p : List Char) : List Char := (pathExt p).map toLowerAscii

/-- The imageExts set of isSupportedMediaFile (processor.go lines 379-391);
note it contains `.dng`. -/
def imageExtsProcessor : List (List Char) :=
  [".jpg", ".jpeg", ".png", ".gif", ".bmp", ".webp",
    ".tiff", ".tif", ".heic", ".heif", ".dng"].map String.toList

/-- The videoExts set of isSupportedMediaFile (processor.go lines 394-408). -/
def videoExtsProcessor : List (List Char) :=
  [".mp4", ".avi", ".mov", ".mkv", ".flv", ".wmv", ".webm",
    ".m4v", ".3gp", ".ogv", ".ts", ".mts", ".m2ts"].map String.toList

/-- isSupportedMediaFile of processor.go (lines 375-415). -/
def isSupportedMediaFile (p : List Char) : Bool :=
  imageExtsProcessor.contains (lowerExt p) || videoExtsProcessor.contains (lowerExt p)

/-- The imageExts set of isImageFile in the metadata applier; it does NOT
contain `.dng`. -/
def imageExtsApplier : List (List Char) :=
  [".jpg", ".jpeg", ".png", ".gif", ".bmp", ".webp",
    ".tiff", ".tif", ".heic", ".heif"].map String.toList

/-- The videoExts set of isVideoFile in the metadata applier (identical to
the processor's video list). -/
def videoExtsApplier : List (List Char) :=
  [".mp4", ".avi", ".mov", ".mkv", ".flv", ".wmv", ".webm",
    ".m4v", ".3gp", ".ogv", ".ts", ".mts", ".m2ts"].map String.toList

/-- isImageFile of the metadata applier. -/
def isImageFile (p : List Char) : Bool := imageExtsApplier.contains (lowerExt p)

/-- isVideoFile of the metadata applier. -/
def isVideoFile (p : List Char) : Bool := videoExtsApplier.contains (lowerExt p)

/-- The three branches of ApplyToFile in the metadata applier. -/
inductive ApplyRoute
  | image
  | video
  | unsupported
deriving DecidableEq

/-- The dispatch structure of ApplyToFile: applyToImage when isImageFile,
else applyToVideo when isVideoFile, else the
unsupported-media-file-type error. -/
def applyToFileRoute (p : List Char) : ApplyRoute :=
  if isImageFile p then .image else if isVideoFile p then .video else .unsupported

/-- Both Windows path separators, for filepath.Dir/Base/Join. -/
def splitAtLastPathSep (p : List Char) : Option (List Char × List Char) :=
  match p with
  | [] => none
  | c :: cs =>
    match splitAtLastPathSep cs with
    | some (d, s) => some (c :: d, s)
    | none => if isPathSep c then some ([c], cs) else none

/-- Go `filepath.Base` (volume names aside): trim trailing separators and
keep the last element; empty path gives a dot, all-separator path gives a
separator. -/
def pathBase (p : List Char) : List Char :=
  if p = [] then ['.']
  else
    let r := p.reverse.dropWhile isPathSep
    if r = [] then ['\\'] else (r.takeWhile (fun c => !isPathSep c)).reverse

/-- Go `filepath.Dir` (volume names aside, and without the Clean rewriting
of redundant separators and dot elements, which is the identity on the
separator-normalized paths built here): everything before the last
separator, trailing separators trimmed; a separator-free path gives a dot. -/
def pathDir (p : List Char) : List Char :=
  match splitAtLastPathSep p with
  | none => ['.']
  | some (d, _) =>
    let d' := (d.reverse.dropWhile isPathSep).reverse
    if d' = [] then ['\\'] else d'

/-- Go `filepath.Join(d, name)` for a non-empty `d` and a simple `name`,
without the Clean rewriting (the identity for the paths built here). -/
def pathJoin (d name : List Char) : List Char :=
  if d = [] then name else d ++ '\\' :: name

/-- The global sidecar path probed by ParseJSON:
`filepath.Join(filepath.Dir(jsonPath), String.mk "supplemental-metadata.json".data)`. -/
def globalSupplementalPath (jsonPath : List Char) : List Char :=
  pathJoin (pathDir jsonPath) ("supplemental-metadata.json".toList)

/-- The per-file sidecar path probed by ParseJSON: the base name of the
primary sidecar with its `.json` suffix trimmed, then
`.supplemental-metadata.json`, joined to the same directory. -/
def perFileSupplementalPath (jsonPath : List Char) : List Char :=
  pathJoin (pathDir jsonPath)
    (trimSuffix (pathBase jsonPath) (".json".toList) ++ ".supplemental-metadata.json".toList)

/-- The filesystem capabilities ParseJSON consumes: `statOk q` is whether
`os.Stat(q)` returned a nil error, and `decode q` is the combined outcome
of os.ReadFile, BOM stripping and json.Unmarshal on `q` (`none` for either
a read error or malformed JSON). -/
structure JsonFS where
  statOk : List Char → Bool
  decode : List Char → Option Metadata

/-- parseSupplementalJSON of internal/metadata: read, strip BOM,
unmarshal — exactly the decode capability. -/
def parseSupplementalJSON (fs : JsonFS) (jsonPath : List Char) : Option Metadata :=
  fs.decode jsonPath

/-- ParseJSON of internal/metadata (lines 59-108): decode the primary
sidecar, then, for the global and then the per-file supplemental sidecar,
if os.Stat succeeds and the layer decodes, merge it in; a layer whose
decode fails is skipped silently and the function still succeeds. -/
def ParseJSON (fs : JsonFS) (jsonPath : List Char) : Option Metadata :=
  match fs.decode jsonPath with
  | none => none
  | some meta =>
    let meta1 :=
      if fs.statOk (globalSupplementalPath jsonPath) then
        match parseSupplementalJSON fs (globalSupplementalPath jsonPath) with
        | some s => mergeMetadata meta s
        | none => meta
      else meta
    let meta2 :=
      if fs.statOk (perFileSupplementalPath jsonPath) then
        match parseSupplementalJSON fs (perFileSupplementalPath jsonPath) with
        | some s => mergeMetadata meta1 s
        | none => meta1
      else meta1
    some meta2

/-- The information content of one detail line appended to
ModifiedDetails or UnmodifiedDetails (the fmt.Sprintf formatting of
processor.go is abstracted into constructors carrying the formatted data). -/
inductive DetailLine
  | dryRun (mediaPath : List Char)
  | modified (details newData : String)
  | unmodified (details existingData : String)
deriving DecidableEq

/-- The Statistics struct of processor.go (lines 15-26), mutex aside. -/
structure Statistics where
  totalFiles : Nat
  jsonFiles : Nat
  processedFiles : Nat
  modifiedFiles : Nat
  unmodifiedFiles : Nat
  skippedFiles : Nat
  errorCount : Nat
  modifiedDetails : List DetailLine
  unmodifiedDetails : List DetailLine
deriving DecidableEq

/-- The ApplyResult struct of the metadata applier. -/
structure ApplyResult where
  modified : Bool
  details : String
  existingData : String
  newData : String
deriving DecidableEq

/-- One console message printed by processMediaFile, with its gating:
constructors mirror the Printf sites in source order. -/
inductive PEvent
  | skipNoMeta (mediaPath : List Char)
  | errCannotAccess (jsonPath : List Char)
  | skipMetaIsDir (jsonPath : List Char)
  | errParseFailed (jsonPath : List Char)
  | dryRunApply (mediaPath : List Char)
  | errApplyFailed (mediaPath : List Char)
  | okModified (mediaPath : List Char)
  | skipUpToDate (mediaPath : List Char)
  | warnDeleteFailed (jsonPath : List Char)
  | deletedSidecar (jsonPath : List Char)
deriving DecidableEq

/-- The collaborators one worker consumes while processing a media file:
the Stat capability of the resolver, the outcome of metadata.ParseJSON at
each path, the outcome of metadata.ApplyToFile, the success of os.Remove,
and the two flags of the Processor. -/
structure PEnv where
  stat : List Char → StatOut
  parse : List Char → Option Metadata
  applyToFile : List Char → Metadata → Option ApplyResult
  removeOk : List Char → Bool
  dryRun : Bool
  verbose : Bool

/-- processMediaFile of processor.go (lines 267-373) as a pure transition
on the shared state (Statistics and the deletedFiles set, modelled as the
list of recorded paths): returns the new statistics, the new deleted set,
the bool result of the function, and the messages printed. -/
def processMediaFile (env : PEnv) (st : Statistics) (deleted : List (List Char))
    (mediaPath : List Char) : Statistics × List (List Char) × Bool × List PEvent :=
  match (checkSupplementalData env.stat mediaPath).1 with
  | .noFile _ =>
    (st, deleted, false, if env.verbose then [.skipNoMeta mediaPath] else [])
  | .statErr lastPath =>
    ({ st with errorCount := st.errorCount + 1 }, deleted, false, [.errCannotAccess lastPath])
  | .found jsonPath isDir =>
    if isDir then
      (st, deleted, false, if env.verbose then [.skipMetaIsDir jsonPath] else [])
    else
      match env.parse jsonPath with
      | none =>
        ({ st with errorCount := st.errorCount + 1 }, deleted, false, [.errParseFailed jsonPath])
      | some meta =>
        let st1 := { st with jsonFiles := st.jsonFiles + 1 }
        if env.dryRun then
          ({ st1 with
              processedFiles := st1.processedFiles + 1,
              modifiedFiles := st1.modifiedFiles + 1,
              modifiedDetails := st1.modifiedDetails ++ [.dryRun mediaPath] },
            deleted, true, [.dryRunApply mediaPath])
        else
          match env.applyToFile mediaPath meta with
          | none =>
            ({ st1 with errorCount := st1.errorCount + 1 }, deleted, false,
              [.errApplyFailed mediaPath])
          | some r =>
            let st2 :=
              if r.modified then
                { st1 with
                    processedFiles := st1.processedFiles + 1,
                    modifiedFiles := st1.modifiedFiles + 1,
                    modifiedDetails := st1.modifiedDetails ++ [.modified r.details r.newData] }
              else
                { st1 with
                    processedFiles := st1.processedFiles + 1,
                    unmodifiedFiles := st1.unmodifiedFiles + 1,
                    unmodifiedDetails :=
                      st1.unmodifiedDetails ++ [.unmodified r.details r.existingData] }
            let ev1 := if r.modified then [PEvent.okModified mediaPath]
              else [PEvent.skipUpToDate mediaPath]
            if env.removeOk jsonPath then
              (st2, deleted ++ [jsonPath], true,
                ev1 ++ (if env.verbose then [.deletedSidecar jsonPath] else []))
            else
              (st2, deleted, true, ev1 ++ [.warnDeleteFailed jsonPath])

/-- The zero Metadata value, as json.Unmarshal leaves an absent field. -/
def metaZero : Metadata :=
  { title := "", description := "", imageViews := 0,
    creationTime := ⟨""⟩, modificationTime := ⟨""⟩,
    geoData := ⟨0, 0, 0, 0, 0⟩, geoDataAlt := ⟨0, 0, 0, 0, 0⟩,
    photoTakenTime := ⟨""⟩ }

/-- A primary record whose modification timestamp is absent and whose
primary GPS fix has zero latitude and longitude but a non-zero altitude. -/
def mergePrimaryEx : Metadata := { metaZero with geoData := ⟨0, 0, 5, 0, 0⟩ }

/-- A supplemental record carrying a modification timestamp and a full
primary GPS fix. -/
def mergeSupplementalEx : Metadata :=
  { metaZero with modificationTime := ⟨"99"⟩, geoData := ⟨1, 2, 3, 0, 0⟩ }

/-- A record whose primary fix has only a latitude and whose alternate fix
is complete, exercising the per-component coordinate fallback. -/
def mixedFixEx : Metadata :=
  { metaZero with geoData := ⟨5, 0, 0, 0, 0⟩, geoDataAlt := ⟨1, 2, 3, 0, 0⟩ }

/-- All-zero statistics, the state at the start of a run. -/
def statsZero : Statistics := ⟨0, 0, 0, 0, 0, 0, 0, [], []⟩

/-- A worker environment in which no sidecar exists anywhere: every Stat
returns a does-not-exist error. -/
def noSidecarEnv : PEnv :=
  { stat := fun _ => .notExist, parse := fun _ => none,
    applyToFile := fun _ _ => none, removeOk := fun _ => true,
    dryRun := false, verbose := true }

/-- A worker environment for one media file `C:\a\x.jpg` whose sidecar
`C:\a\x.json` exists, decodes, applies with a modification, and whose
deletion FAILS. -/
def deleteFailEnv : PEnv :=
  { stat := fun q => if q == ("C:\\a\\x.json".toList) then .found false else .notExist,
    parse := fun _ => some metaZero,
    applyToFile := fun _ _ => some ⟨true, "x.jpg", "", "d"⟩,
    removeOk := fun _ => false,
    dryRun := false, verbose := false }

/-- The same environment with the deletion succeeding. -/
def deleteOkEnv : PEnv := { deleteFailEnv with removeOk := fun _ => true }

/-- A sidecar filesystem for `C:\a\photo.jpg.json`: the primary decodes,
the global supplemental sidecar exists but is malformed, and no per-file
supplemental sidecar exists. -/
def malformedGlobalFS : JsonFS :=
  { statOk := fun q => q == ("C:\\a\\supplemental-metadata.json".toList),
    decode := fun q => if q == ("C:\\a\\photo.jpg.json".toList) then some metaZero else none }

/-- A record carrying only a photo-taken timestamp. -/
def photoTimeEx : Metadata := { metaZero with photoTakenTime := ⟨"1609459200"⟩ }

/-- `leadsWith` decides the prefix relation. -/
theorem leadsWith_iff : ∀ old s : List Char, leadsWith old s = true ↔ ∃ t, s = old ++ t
  | [], s => by simp [leadsWith]
  | a :: as, [] => by
    constructor
    · intro h; simp [leadsWith] at h
    · rintro ⟨t, ht⟩; simp at ht
  | a :: as, b :: bs => by
    simp only [leadsWith, Bool.and_eq_true, beq_iff_eq]
    constructor
    · rintro ⟨rfl, h⟩
      obtain ⟨t, rfl⟩ := (leadsWith_iff as bs).mp h
      exact ⟨t, rfl⟩
    · rintro ⟨t, ht⟩
      injection ht with h1 h2
      exact ⟨h1.symm, (leadsWith_iff as bs).mpr ⟨t, h2⟩⟩

/-- When `old` is non-empty and occurs in `s`, `replaceFirst` removes one
occurrence of it: the result splits around a real occurrence. -/
theorem replaceFirst_occurs (old : List Char) (hne : old ≠ []) :
    ∀ s : List Char, (∃ a b, s = a ++ old ++ b) →
      ∃ a b, s = a ++ old ++ b ∧ replaceFirst s old = a ++ b := by
  intro s
  induction s with
  | nil =>
    rintro ⟨a, b, hab⟩
    exfalso
    rcases old with _ | ⟨o, os⟩
    · exact hne rfl
    · rcases a with _ | ⟨a0, a'⟩ <;> simp at hab
  | cons c cs ih =>
    rintro ⟨a, b, hab⟩
    by_cases hl : leadsWith old (c :: cs) = true
    · obtain ⟨t, ht⟩ := (leadsWith_iff old (c :: cs)).mp hl
      refine ⟨[], t, by simpa using ht, ?_⟩
      have hr : replaceFirst (c :: cs) old = (c :: cs).drop old.length := by
        simp [replaceFirst, hl]
      rw [hr, ht]
      simp [List.drop_left]
    · rcases a with _ | ⟨a0, a'⟩
      · exact absurd ((leadsWith_iff old (c :: cs)).mpr ⟨b, by simpa using hab⟩) hl
      · injection hab with h1 h2
        obtain ⟨a2, b2, h3, h4⟩ := ih ⟨a', b, h2⟩
        refine ⟨c :: a2, b2, by simp [h3], ?_⟩
        have hr : replaceFirst (c :: cs) old = c :: replaceFirst cs old := by
          simp [replaceFirst, hl]
        rw [hr, h4]
        simp

/-- `splitAtLastSep` returns `none` exactly when the path has no backslash. -/
theorem splitAtLastSep_none (p : List Char) : splitAtLastSep p = none ↔ '\\' ∉ p := by
  induction p with
  | nil => simp [splitAtLastSep]
  | cons c cs ih =>
    cases h : splitAtLastSep cs with
    | some ds =>
      have hcs : '\\' ∈ cs := by
        by_contra hnot
        rw [← ih, h] at hnot
        exact Option.noConfusion hnot
      rcases ds with ⟨d, s⟩
      simp only [splitAtLastSep, h]
      constructor
      · intro hh; exact Option.noConfusion hh
      · intro hh; exact absurd (List.mem_cons_of_mem c hcs) hh
    | none =>
      have hcs : '\\' ∉ cs := ih.mp h
      by_cases hc : c = '\\'
      · subst hc
        simp [splitAtLastSep, h]
      · simp only [splitAtLastSep, h, if_neg hc, List.mem_cons, not_or]
        constructor
        · intro _; exact ⟨fun hh => hc hh.symm, hcs⟩
        · intro _; trivial

/-- The split returned by `splitAtLastSep`: the path is the directory part
(which ends with the backslash) followed by the final segment, which holds
no backslash. -/
theorem splitAtLastSep_some :
    ∀ p d s : List Char, splitAtLastSep p = some (d, s) →
      p = d ++ s ∧ (∃ d0, d = d0 ++ ['\\']) ∧ '\\' ∉ s := by
  intro p
  induction p with
  | nil => intro d s h; simp [splitAtLastSep] at h
  | cons c cs ih =>
    intro d s h
    cases hcs : splitAtLastSep cs with
    | some ds =>
      rcases ds with ⟨d', s'⟩
      rw [splitAtLastSep, hcs] at h
      simp only [Option.some.injEq, Prod.mk.injEq] at h
      obtain ⟨hd, hs⟩ := h
      obtain ⟨h1, ⟨d0, hd0⟩, h3⟩ := ih d' s' hcs
      subst hd hs
      exact ⟨by simp [h1], ⟨c :: d0, by simp [hd0]⟩, h3⟩
    | none =>
      rw [splitAtLastSep, hcs] at h
      by_cases hc : c = '\\'
      · rw [if_pos hc] at h
        simp only [Option.some.injEq, Prod.mk.injEq] at h
        obtain ⟨hd, hs⟩ := h
        subst hd hs
        exact ⟨by simp, ⟨[], by simp [hc]⟩, (splitAtLastSep_none cs).mp hcs⟩
      · rw [if_neg hc] at h
        exact Option.noConfusion h

/-- Every character kept by `takeWhile` satisfies the predicate. -/
theorem takeWhile_all (q : Char → Bool) : ∀ l : List Char, (l.takeWhile q).all q = true := by
  intro l
  induction l with
  | nil => rfl
  | cons c cs ih =>
    by_cases h : q c
    · simp [List.takeWhile_cons, h, ih]
    · simp [List.takeWhile_cons, h]

/-- A successful `matchDupRun` returns a parenthesized run of one or more
digits matched at the head of the input. -/
theorem matchDupRun_spec :
    ∀ s m t : List Char, matchDupRun s = some (m, t) →
      ∃ ds : List Char, ds ≠ [] ∧ ds.all Char.isDigit = true ∧
        m = '(' :: (ds ++ [')']) ∧ s = m ++ t := by
  intro s m t h
  match s with
  | [] => simp [matchDupRun] at h
  | c :: rest =>
    rw [matchDupRun] at h
    split at h
    · next hc =>
        split at h
        · exact Option.noConfusion h
        · next c2 tail hdw =>
            split at h
            · next hc2 =>
                split at h
                · exact Option.noConfusion h
                · next htw =>
                    simp only [Option.some.injEq, Prod.mk.injEq] at h
                    obtain ⟨hm, ht⟩ := h
                    refine ⟨rest.takeWhile Char.isDigit, htw, takeWhile_all _ _, hm.symm, ?_⟩
                    have hrest : rest = rest.takeWhile Char.isDigit ++ (')' :: tail) := by
                      conv_lhs =>
                        rw [← List.takeWhile_append_dropWhile (p := Char.isDigit) (l := rest)]
                      rw [hdw, hc2]
                    subst ht
                    rw [← hm, hc]
                    conv_lhs => rw [hrest]
                    simp
            · exact Option.noConfusion h
    · exact Option.noConfusion h

/-- Every run found by the fuel-indexed scan is a parenthesized digit run
occurring in the input. -/
theorem findDupRunsF_mem :
    ∀ (n : Nat) (s m : List Char), m ∈ findDupRunsF n s →
      (∃ ds : List Char, ds ≠ [] ∧ ds.all Char.isDigit = true ∧ m = '(' :: (ds ++ [')'])) ∧
        ∃ a b : List Char, s = a ++ m ++ b := by
  intro n
  induction n with
  | zero => intro s m h; simp [findDupRunsF] at h
  | succ k ih =>
    intro s m h
    match s with
    | [] => simp [findDupRunsF] at h
    | c :: cs =>
      rw [findDupRunsF] at h
      cases hm : matchDupRun (c :: cs) with
      | some p =>
        rcases p with ⟨m', t⟩
        rw [hm] at h
        rcases List.mem_cons.mp h with rfl | h2
        · obtain ⟨ds, h1, h2, h3, h4⟩ := matchDupRun_spec _ _ _ hm
          exact ⟨⟨ds, h1, h2, h3⟩, [], t, by simpa using h4⟩
        · obtain ⟨hshape, a, b, hab⟩ := ih t m h2
          obtain ⟨ds, h1, h2', h3, h4⟩ := matchDupRun_spec _ _ _ hm
          exact ⟨hshape, m' ++ a, b, by rw [h4, hab]; simp⟩
      | none =>
        rw [hm] at h
        obtain ⟨hshape, a, b, hab⟩ := ih cs m h
        exact ⟨hshape, c :: a, b, by rw [hab]; simp⟩

/-- Membership in the dropLast of a cons. -/
theorem mem_dropLast_cons {x q : List Char} {T : List (List Char)}
    (hx : x ∈ (q :: T).dropLast) : x = q ∨ x ∈ T.dropLast := by
  cases T with
  | nil => simp at hx
  | cons t ts =>
    rw [List.dropLast_cons₂] at hx
    rcases List.mem_cons.mp hx with hx2 | hx2
    · exact Or.inl hx2
    · exact Or.inr hx2

/-- getLast? of a cons with a non-empty tail. -/
theorem getLast?_cons_of_some {q q0 : List Char} {T : List (List Char)}
    (h : T.getLast? = some q0) : (q :: T).getLast? = some q0 := by
  cases T with
  | nil => simp at h
  | cons t ts => rw [List.getLast?_cons_cons]; exact h

/-- The probing loop tries the candidate paths in list order: the probe
trace is a prefix of the candidate list, every probed path before the last
one failed its Stat, and a found result is the last probed path with a
successful Stat. -/
theorem probeSeq_spec (stat : List Char → StatOut) :
    ∀ qs : List (List Char),
      (∃ us, (probeSeq stat qs).2 ++ us = qs) ∧
        (∀ q ∈ (probeSeq stat qs).2.dropLast, ∀ d, stat q ≠ .found d) ∧
        (∀ q d, (probeSeq stat qs).1 = .found q d →
          (probeSeq stat qs).2.getLast? = some q ∧ stat q = .found d) := by
  intro qs
  induction qs with
  | nil =>
    refine ⟨⟨[], rfl⟩, ?_, ?_⟩
    · intro q hq d; simp [probeSeq] at hq
    · intro q d h; simp [probeSeq] at h
  | cons q qs ih =>
    cases hs : stat q with
    | found d0 =>
      have hps : probeSeq stat (q :: qs) = (.found q d0, [q]) := by
        simp [probeSeq, probeStep, hs]
      rw [hps]
      refine ⟨⟨qs, rfl⟩, ?_, ?_⟩
      · intro x hx d; simp at hx
      · intro x d h
        simp only [ResolveOut.found.injEq] at h
        obtain ⟨rfl, rfl⟩ := h
        exact ⟨rfl, hs⟩
    | notExist =>
      cases qs with
      | nil =>
        have hps : probeSeq stat [q] = (.noFile q, [q]) := by
          simp [probeSeq, probeStep, hs]
        rw [hps]
        refine ⟨⟨[], rfl⟩, ?_, ?_⟩
        · intro x hx d; simp at hx
        · intro x d h; exact ResolveOut.noConfusion h
      | cons q' qs' =>
        have hps : probeSeq stat (q :: q' :: qs')
            = ((probeSeq stat (q' :: qs')).1, q :: (probeSeq stat (q' :: qs')).2) := by
          simp [probeSeq, probeStep, hs]
        rw [hps]
        obtain ⟨⟨us, hus⟩, hmid, hfound⟩ := ih
        refine ⟨⟨us, by simp [hus]⟩, ?_, ?_⟩
        · intro x hx d
          rcases mem_dropLast_cons hx with rfl | hx2
          · rw [hs]; exact fun hh => StatOut.noConfusion hh
          · exact hmid x hx2 d
        · intro x d h
          obtain ⟨h1, h2⟩ := hfound x d h
          exact ⟨getLast?_cons_of_some h1, h2⟩
    | errOther =>
      cases qs with
      | nil =>
        have hps : probeSeq stat [q] = (.statErr q, [q]) := by
          simp [probeSeq, probeStep, hs]
        rw [hps]
        refine ⟨⟨[], rfl⟩, ?_, ?_⟩
        · intro x hx d; simp at hx
        · intro x d h; exact ResolveOut.noConfusion h
      | cons q' qs' =>
        have hps : probeSeq stat (q :: q' :: qs')
            = ((probeSeq stat (q' :: qs')).1, q :: (probeSeq stat (q' :: qs')).2) := by
          simp [probeSeq, probeStep, hs]
        rw [hps]
        obtain ⟨⟨us, hus⟩, hmid, hfound⟩ := ih
        refine ⟨⟨us, by simp [hus]⟩, ?_, ?_⟩
        · intro x hx d
          rcases mem_dropLast_cons hx with rfl | hx2
          · rw [hs]; exact fun hh => StatOut.noConfusion hh
          · exact hmid x hx2 d
        · intro x d h
          obtain ⟨h1, h2⟩ := hfound x d h
          exact ⟨getLast?_cons_of_some h1, h2⟩

/-- C1, amended.  The resolver's duplicate-suffix normalization treats the
backslash as the only path separator: when the media path contains no
backslash the name is never normalized; when it does, and the substring
after the last backslash contains exactly one parenthesized-integer run,
that run is removed from the file name (the directory part is kept); with
zero or more than one run the path is unchanged. -/
theorem C1_theorem (p : List Char) :
    (splitAtLastSep p = none → '\\' ∉ p ∧ dupNormalize p = (p, [])) ∧
    (∀ d seg, splitAtLastSep p = some (d, seg) →
      p = d ++ seg ∧ '\\' ∉ seg ∧
        ((findDupRuns seg).length ≠ 1 → dupNormalize p = (p, [])) ∧
        (∀ m, findDupRuns seg = [m] →
          ∃ ds a b, ds ≠ [] ∧ ds.all Char.isDigit = true ∧ m = '(' :: (ds ++ [')']) ∧
            seg = a ++ m ++ b ∧ dupNormalize p = (d ++ (a ++ b), m))) := by
  constructor
  · intro h
    exact ⟨(splitAtLastSep_none p).mp h, by simp [dupNormalize, h]⟩
  · intro d seg h
    obtain ⟨h1, -, h3⟩ := splitAtLastSep_some p d seg h
    refine ⟨h1, h3, ?_, ?_⟩
    · intro hlen
      cases hf : findDupRuns seg with
      | nil => simp [dupNormalize, h, hf]
      | cons m ms =>
        cases ms with
        | nil => exact absurd (by rw [hf]; rfl) hlen
        | cons m2 ms2 => simp [dupNormalize, h, hf]
    · intro m hm
      have hmem : m ∈ findDupRuns seg := by rw [hm]; exact List.mem_singleton_self m
      obtain ⟨⟨ds, hds1, hds2, hds3⟩, a0, b0, hocc⟩ :=
        findDupRunsF_mem seg.length seg m hmem
      have hne : m ≠ [] := by rw [hds3]; exact List.cons_ne_nil _ _
      obtain ⟨a, b, hseg, hrep⟩ := replaceFirst_occurs m hne seg ⟨a0, b0, hocc⟩
      refine ⟨ds, a, b, hds1, hds2, hds3, hseg, ?_⟩
      simp [dupNormalize, h, hm, hrep]

/-- Witness for C1_theorem at the Windows path `C:\a\IMG(2).jpg`: the
final segment carries exactly one run `(2)` and normalization removes it. -/
theorem C1_theorem_witness :
    ∃ ds a b : List Char, ds ≠ [] ∧ ds.all Char.isDigit = true ∧
      ("(2)".toList : List Char) = '(' :: (ds ++ [')']) ∧
      ("IMG(2).jpg".toList : List Char) = a ++ "(2)".toList ++ b ∧
      dupNormalize ("C:\\a\\IMG(2).jpg".toList)
        = ("C:\\a\\".toList ++ (a ++ b), "(2)".toList) := by
  have h := (C1_theorem ("C:\\a\\IMG(2).jpg".toList)).2
    ("C:\\a\\".toList) ("IMG(2).jpg".toList) (by decide)
  exact h.2.2.2 ("(2)".toList) (by decide)

/-- C1 is false as the claim states it: the media path `IMG(2).jpg` has no
separator of either kind, so its final path segment is the whole name and
contains exactly one parenthesized-integer run, yet the normalization
leaves the name unchanged instead of producing `IMG.jpg` (the code only
normalizes after a backslash). -/
theorem C1_counterexample :
    ('\\' ∉ ("IMG(2).jpg".toList : List Char) ∧ '/' ∉ ("IMG(2).jpg".toList : List Char)) ∧
    findDupRuns ("IMG(2).jpg".toList) = ["(2)".toList] ∧
    dupNormalize ("IMG(2).jpg".toList) = ("IMG(2).jpg".toList, []) ∧
    replaceFirst ("IMG(2).jpg".toList) ("(2)".toList) = "IMG.jpg".toList ∧
    ("IMG(2).jpg".toList : List Char) ≠ "IMG.jpg".toList := by
  decide

/-- C2, amended.  The suffixes are tried in the fixed order of the
jsonSuffixes array: the EMPTY suffix first, then the full literal
`.supplemental-metadata` and every one-character-shorter truncation of it
down to `.s` (longest to shortest); each candidate is the base path, the
suffix, the previously-removed duplicate marker (step 3 only; empty in
step 4), then `.json`; candidates are probed in list order and the first
existing path wins. -/
theorem C2_theorem :
    jsonSuffixes = [] :: claimTruncations ∧
    (∀ p : List Char, probePaths p =
      extSwapPath p ::
        (jsonSuffixes.map
            (fun suf => (dupNormalize p).1 ++ suf ++ (dupNormalize p).2 ++ ".json".toList) ++
          jsonSuffixes.map (fun suf => p ++ suf ++ ".json".toList))) ∧
    (∀ (stat : List Char → StatOut) (p : List Char),
      (∃ us, (checkSupplementalData stat p).2 ++ us = probePaths p) ∧
        (∀ q ∈ (checkSupplementalData stat p).2.dropLast, ∀ d, stat q ≠ .found d) ∧
        (∀ q d, (checkSupplementalData stat p).1 = .found q d →
          (checkSupplementalData stat p).2.getLast? = some q ∧ stat q = .found d)) :=
  ⟨by decide, fun _ => rfl, fun stat p => probeSeq_spec stat (probePaths p)⟩

/-- Witness for C2_theorem: with only `a.json` existing, resolution for
`a.jpg` ends at that path, the last element of its probe trace. -/
theorem C2_theorem_witness :
    (checkSupplementalData
        (fun q => if q = ("a.json".toList : List Char) then StatOut.found false else .notExist)
        ("a.jpg".toList)).2.getLast? = some ("a.json".toList) := by
  have h := (C2_theorem.2.2
      (fun q => if q = ("a.json".toList : List Char) then StatOut.found false else .notExist)
      ("a.jpg".toList)).2.2 ("a.json".toList) false (by decide)
  exact h.1

/-- C2 is false as the claim states it: the claim puts the empty suffix
last and the full literal first, but the jsonSuffixes array begins with
the empty suffix and ends with `.s`. -/
theorem C2_counterexample :
    jsonSuffixes ≠ claimSuffixOrder ∧
    jsonSuffixes.head? = some [] ∧
    claimSuffixOrder.head? = some supMetaSuffix ∧
    jsonSuffixes.getLast? = some (".s".toList) ∧
    claimSuffixOrder.getLast? = some [] := by
  decide

/-- C4, confirmed.  When the extension-swap sidecar path exists, the
resolver returns exactly that path and performs no further existence
check: the probe trace is that single path. -/
theorem C4_theorem (stat : List Char → StatOut) (p : List Char) (d : Bool)
    (h : stat (extSwapPath p) = .found d) :
    checkSupplementalData stat p = (.found (extSwapPath p) d, [extSwapPath p]) := by
  unfold checkSupplementalData probePaths
  simp [probeSeq, probeStep, h]

/-- Witness for C4_theorem: `C:\a\photo.jpg` with `C:\a\photo.json`
present resolves to it in one probe. -/
theorem C4_theorem_witness :
    checkSupplementalData
        (fun q =>
          if q = ("C:\\a\\photo.json".toList : List Char) then .found false else .notExist)
        ("C:\\a\\photo.jpg".toList)
      = (.found ("C:\\a\\photo.json".toList) false, ["C:\\a\\photo.json".toList]) := by
  have h := C4_theorem
      (fun q =>
        if q = ("C:\\a\\photo.json".toList : List Char) then .found false else .notExist)
      ("C:\\a\\photo.jpg".toList) false (by decide)
  exact h.trans (by decide)

/-- C3, amended.  Merge fills title, description, view count, creation
timestamp and photo-taken timestamp field-by-field (supplemental value
only when the primary's is empty/zero and the supplemental has one), never
replacing a non-empty primary scalar; the modification timestamp is NEVER
merged (the primary's value always survives, even when empty); each GPS
fix is replaced as a whole struct exactly when the primary fix has zero
latitude and zero longitude and the supplemental fix has a non-zero
latitude or longitude — presence of a fix is judged by latitude/longitude
only, so a primary fix carrying only a non-zero altitude or span counts as
absent and its fields are discarded by the replacement. -/
theorem C3_theorem (p s : Metadata) :
    ((p.title ≠ "" → (mergeMetadata p s).title = p.title) ∧
      (p.title = "" → s.title ≠ "" → (mergeMetadata p s).title = s.title) ∧
      (p.title = "" → s.title = "" → (mergeMetadata p s).title = "")) ∧
    ((p.description ≠ "" → (mergeMetadata p s).description = p.description) ∧
      (p.description = "" → s.description ≠ "" →
        (mergeMetadata p s).description = s.description) ∧
      (p.description = "" → s.description = "" → (mergeMetadata p s).description = "")) ∧
    ((p.imageViews ≠ 0 → (mergeMetadata p s).imageViews = p.imageViews) ∧
      (p.imageViews = 0 → s.imageViews > 0 → (mergeMetadata p s).imageViews = s.imageViews) ∧
      (p.imageViews = 0 → ¬s.imageViews > 0 → (mergeMetadata p s).imageViews = 0)) ∧
    ((p.creationTime.timestamp ≠ "" → (mergeMetadata p s).creationTime = p.creationTime) ∧
      (p.creationTime.timestamp = "" → s.creationTime.timestamp ≠ "" →
        (mergeMetadata p s).creationTime = s.creationTime) ∧
      (p.creationTime.timestamp = "" → s.creationTime.timestamp = "" →
        (mergeMetadata p s).creationTime = p.creationTime)) ∧
    ((p.photoTakenTime.timestamp ≠ "" →
        (mergeMetadata p s).photoTakenTime = p.photoTakenTime) ∧
      (p.photoTakenTime.timestamp = "" → s.photoTakenTime.timestamp ≠ "" →
        (mergeMetadata p s).photoTakenTime = s.photoTakenTime) ∧
      (p.photoTakenTime.timestamp = "" → s.photoTakenTime.timestamp = "" →
        (mergeMetadata p s).photoTakenTime = p.photoTakenTime)) ∧
    (mergeMetadata p s).modificationTime = p.modificationTime ∧
    (((p.geoData.latitude ≠ 0 ∨ p.geoData.longitude ≠ 0) →
        (mergeMetadata p s).geoData = p.geoData) ∧
      (p.geoData.latitude = 0 → p.geoData.longitude = 0 →
        (s.geoData.latitude ≠ 0 ∨ s.geoData.longitude ≠ 0) →
        (mergeMetadata p s).geoData = s.geoData) ∧
      (p.geoData.latitude = 0 → p.geoData.longitude = 0 →
        s.geoData.latitude = 0 → s.geoData.longitude = 0 →
        (mergeMetadata p s).geoData = p.geoData)) ∧
    (((p.geoDataAlt.latitude ≠ 0 ∨ p.geoDataAlt.longitude ≠ 0) →
        (mergeMetadata p s).geoDataAlt = p.geoDataAlt) ∧
      (p.geoDataAlt.latitude = 0 → p.geoDataAlt.longitude = 0 →
        (s.geoDataAlt.latitude ≠ 0 ∨ s.geoDataAlt.longitude ≠ 0) →
        (mergeMetadata p s).geoDataAlt = s.geoDataAlt) ∧
      (p.geoDataAlt.latitude = 0 → p.geoDataAlt.longitude = 0 →
        s.geoDataAlt.latitude = 0 → s.geoDataAlt.longitude = 0 →
        (mergeMetadata p s).geoDataAlt = p.geoDataAlt)) := by
  refine ⟨⟨?_, ?_, ?_⟩, ⟨?_, ?_, ?_⟩, ⟨?_, ?_, ?_⟩, ⟨?_, ?_, ?_⟩, ⟨?_, ?_, ?_⟩, ?_,
    ⟨?_, ?_, ?_⟩, ⟨?_, ?_, ?_⟩⟩ <;>
    intros <;> simp only [mergeMetadata] <;> split_ifs <;> simp_all

/-- Witness for C3_theorem at the example pair: the supplemental GPS fix
replaces a primary fix whose only data is its altitude, and the primary's
absent modification timestamp stays absent. -/
theorem C3_theorem_witness :
    (mergeMetadata mergePrimaryEx mergeSupplementalEx).geoData
        = mergeSupplementalEx.geoData ∧
      (mergeMetadata mergePrimaryEx mergeSupplementalEx).modificationTime
        = mergePrimaryEx.modificationTime := by
  obtain ⟨-, -, -, -, -, hmod, ⟨-, hg, -⟩, -⟩ :=
    C3_theorem mergePrimaryEx mergeSupplementalEx
  exact ⟨hg (by decide) (by decide) (by decide), hmod⟩

/-- C3 is false as the claim states it: at this concrete pair the
supplemental modification timestamp `99` is not used to fill the primary's
absent modification timestamp, and the primary GPS fix's non-zero altitude
5 (a field present in the primary) is discarded by the whole-struct
replacement although the fix is not entirely absent. -/
theorem C3_counterexample :
    mergePrimaryEx.modificationTime.timestamp = "" ∧
    mergeSupplementalEx.modificationTime.timestamp = "99" ∧
    (mergeMetadata mergePrimaryEx mergeSupplementalEx).modificationTime.timestamp = "" ∧
    mergePrimaryEx.geoData.altitude = 5 ∧
    (mergeMetadata mergePrimaryEx mergeSupplementalEx).geoData.altitude = 3 := by
  decide

/-- C5, amended.  Each coordinate component is resolved independently of
the others: GetLatitude, GetLongitude and GetAltitude each return the
primary fix's component when non-zero, else the alternate fix's component
when non-zero, else zero with a false flag — so the returned latitude,
longitude and altitude can come from different fixes. -/
theorem C5_theorem (m : Metadata) :
    ((m.geoData.latitude ≠ 0 → m.GetLatitude = (m.geoData.latitude, true)) ∧
      (m.geoData.latitude = 0 → m.geoDataAlt.latitude ≠ 0 →
        m.GetLatitude = (m.geoDataAlt.latitude, true)) ∧
      (m.geoData.latitude = 0 → m.geoDataAlt.latitude = 0 → m.GetLatitude = (0, false))) ∧
    ((m.geoData.longitude ≠ 0 → m.GetLongitude = (m.geoData.longitude, true)) ∧
      (m.geoData.longitude = 0 → m.geoDataAlt.longitude ≠ 0 →
        m.GetLongitude = (m.geoDataAlt.longitude, true)) ∧
      (m.geoData.longitude = 0 → m.geoDataAlt.longitude = 0 →
        m.GetLongitude = (0, false))) ∧
    ((m.geoData.altitude ≠ 0 → m.GetAltitude = (m.geoData.altitude, true)) ∧
      (m.geoData.altitude = 0 → m.geoDataAlt.altitude ≠ 0 →
        m.GetAltitude = (m.geoDataAlt.altitude, true)) ∧
      (m.geoData.altitude = 0 → m.geoDataAlt.altitude = 0 →
        m.GetAltitude = (0, false))) := by
  refine ⟨⟨?_, ?_, ?_⟩, ⟨?_, ?_, ?_⟩, ⟨?_, ?_, ?_⟩⟩ <;>
    intros <;>
    simp only [Metadata.GetLatitude, Metadata.GetLongitude, Metadata.GetAltitude] <;>
    split_ifs <;> simp_all

/-- Witness for C5_theorem at the example record: the longitude falls back
to the alternate fix while the latitude comes from the primary fix. -/
theorem C5_theorem_witness :
    mixedFixEx.GetLatitude = (mixedFixEx.geoData.latitude, true) ∧
      mixedFixEx.GetLongitude = (mixedFixEx.geoDataAlt.longitude, true) := by
  obtain ⟨⟨hlat, -, -⟩, ⟨-, hlon, -⟩, -⟩ := C5_theorem mixedFixEx
  exact ⟨hlat (by decide), hlon (by decide) (by decide)⟩

/-- C5 is false as the claim states it: this record's primary fix has
non-zero latitude 5 (so by the claim the primary fix should be returned as
a unit), yet the resolved longitude is 2, taken from the alternate fix —
the components mix the two fixes. -/
theorem C5_counterexample :
    mixedFixEx.geoData.latitude = 5 ∧
    mixedFixEx.geoData.longitude = 0 ∧
    mixedFixEx.geoDataAlt.longitude = 2 ∧
    mixedFixEx.GetLatitude = (5, true) ∧
    mixedFixEx.GetLongitude = (2, true) := by
  decide

/-- C6, confirmed.  GetPhotoTime parses the photo-taken timestamp exactly
when that field is non-empty (so a non-numeric value there fails without
consulting the creation timestamp), else parses the creation timestamp
when non-empty, else fails with the no-timestamp error; a string with no
leading decimal integer makes parseTimestamp fail; the modification
timestamp never influences the result. -/
theorem C6_theorem (m : Metadata) :
    (m.photoTakenTime.timestamp ≠ "" →
      m.GetPhotoTime = parseTimestamp m.photoTakenTime.timestamp) ∧
    (m.photoTakenTime.timestamp = "" → m.creationTime.timestamp ≠ "" →
      m.GetPhotoTime = parseTimestamp m.creationTime.timestamp) ∧
    (m.photoTakenTime.timestamp = "" → m.creationTime.timestamp = "" →
      m.GetPhotoTime = .error .noTimestamp) ∧
    (∀ ts : String, scanInt64 ts.toList = none →
      parseTimestamp ts = .error .invalidTimestamp) ∧
    (∀ mt : ModificationTime,
      Metadata.GetPhotoTime { m with modificationTime := mt } = m.GetPhotoTime) := by
  refine ⟨?_, ?_, ?_, ?_, fun mt => rfl⟩
  · intro h1
    simp only [Metadata.GetPhotoTime, if_pos h1]
  · intro h1 h2
    simp only [Metadata.GetPhotoTime, h1]
    simp [h2]
  · intro h1 h2
    simp [Metadata.GetPhotoTime, h1, h2]
  · intro ts h
    simp only [parseTimestamp, h]

/-- Witness for C6_theorem: a record with only a photo-taken timestamp
resolves through parseTimestamp, and a non-numeric string fails. -/
theorem C6_theorem_witness :
    photoTimeEx.GetPhotoTime = parseTimestamp "1609459200" ∧
      parseTimestamp "abc" = Except.error TimeErr.invalidTimestamp := by
  exact ⟨(C6_theorem photoTimeEx).1 (by decide),
    (C6_theorem photoTimeEx).2.2.2.1 "abc" (by decide)⟩

/-- C7: the code at the failing input.  For a media file with no sidecar
under any probe (every Stat returns does-not-exist), processMediaFile
leaves the statistics COMPLETELY unchanged — the error counter is not
incremented, as the claim says, but the SkippedFiles counter is not
incremented either (it stays 0; no code path in the repository ever
increments it), and the only effect is the verbose skip message. -/
theorem C7_theorem :
    processMediaFile noSidecarEnv statsZero [] ("C:\\takeout\\photo.jpg".toList)
        = (statsZero, [], false, [PEvent.skipNoMeta ("C:\\takeout\\photo.jpg".toList)]) ∧
      statsZero.skippedFiles = 0 ∧ statsZero.errorCount = 0 := by
  exact ⟨by decide, rfl, rfl⟩

/-- C8, confirmed.  After a successful metadata application, a failed
sidecar deletion leaves the error counter unchanged, the unit is still
counted as processed (modified or already-current), the function still
returns true, the warning is emitted, and the consumed set gains the
sidecar path only when the deletion succeeds. -/
theorem C8_theorem (env : PEnv) (st : Statistics) (deleted : List (List Char))
    (p jsonPath : List Char) (meta : Metadata) (r : ApplyResult) (tr : List (List Char))
    (hres : checkSupplementalData env.stat p = (.found jsonPath false, tr))
    (hparse : env.parse jsonPath = some meta)
    (hdry : env.dryRun = false)
    (happly : env.applyToFile p meta = some r) :
    (env.removeOk jsonPath = false →
      (processMediaFile env st deleted p).1.errorCount = st.errorCount ∧
        (processMediaFile env st deleted p).1.processedFiles = st.processedFiles + 1 ∧
        (processMediaFile env st deleted p).1.modifiedFiles
            + (processMediaFile env st deleted p).1.unmodifiedFiles
          = st.modifiedFiles + st.unmodifiedFiles + 1 ∧
        (processMediaFile env st deleted p).2.1 = deleted ∧
        (processMediaFile env st deleted p).2.2.1 = true ∧
        PEvent.warnDeleteFailed jsonPath ∈ (processMediaFile env st deleted p).2.2.2) ∧
    (env.removeOk jsonPath = true →
      (processMediaFile env st deleted p).2.1 = deleted ++ [jsonPath]) := by
  rcases r with ⟨mod, det, ex, nd⟩
  cases mod with
  | false =>
    constructor
    · intro hrm
      refine ⟨?_, ?_, ?_, ?_, ?_, ?_⟩ <;>
        · simp [processMediaFile, hres, hparse, hdry, happly, hrm]
          try omega
    · intro hrm
      simp [processMediaFile, hres, hparse, hdry, happly, hrm]
  | true =>
    constructor
    · intro hrm
      refine ⟨?_, ?_, ?_, ?_, ?_, ?_⟩ <;>
        · simp [processMediaFile, hres, hparse, hdry, happly, hrm]
          try omega
    · intro hrm
      simp [processMediaFile, hres, hparse, hdry, happly, hrm]

/-- Witness for C8_theorem at the concrete environments: with the deletion
failing the consumed set stays empty and no error is counted; with it
succeeding the sidecar path is recorded. -/
theorem C8_theorem_witness :
    (processMediaFile deleteFailEnv statsZero [] ("C:\\a\\x.jpg".toList)).1.errorCount
        = statsZero.errorCount ∧
      (processMediaFile deleteFailEnv statsZero [] ("C:\\a\\x.jpg".toList)).2.1 = [] ∧
      (processMediaFile deleteOkEnv statsZero [] ("C:\\a\\x.jpg".toList)).2.1
        = [] ++ ["C:\\a\\x.json".toList] := by
  have h1 := C8_theorem deleteFailEnv statsZero [] ("C:\\a\\x.jpg".toList)
      ("C:\\a\\x.json".toList) metaZero ⟨true, "x.jpg", "", "d"⟩ ["C:\\a\\x.json".toList]
      (by decide) rfl rfl rfl
  have h2 := C8_theorem deleteOkEnv statsZero [] ("C:\\a\\x.jpg".toList)
      ("C:\\a\\x.json".toList) metaZero ⟨true, "x.jpg", "", "d"⟩ ["C:\\a\\x.json".toList]
      (by decide) rfl rfl rfl
  exact ⟨(h1.1 rfl).1, (h1.1 rfl).2.2.2.1, h2.2 rfl⟩

/-- C9, amended.  For every file whose lower-cased extension is in the
processor's supported set, dispatch reaches the image or video applier
EXCEPT for `.dng`: that extension is in the processor's image set but not
in the applier's, so a `.dng` file passes the support check and still hits
the unsupported-media-file-type error branch. -/
theorem C9_theorem (p : List Char) (h : isSupportedMediaFile p = true) :
    (lowerExt p ≠ ".dng".toList → applyToFileRoute p ≠ ApplyRoute.unsupported) ∧
    (lowerExt p = ".dng".toList → applyToFileRoute p = ApplyRoute.unsupported) := by
  have hmem : lowerExt p ∈ imageExtsProcessor ∨ lowerExt p ∈ videoExtsProcessor := by
    simpa [isSupportedMediaFile] using h
  constructor
  · intro hdng
    rcases hmem with h1 | h1
    · have h2 : lowerExt p ∈ imageExtsApplier := by
        have hsplit : imageExtsProcessor = imageExtsApplier ++ [".dng".toList] := by decide
        rw [hsplit] at h1
        rcases List.mem_append.mp h1 with h3 | h3
        · exact h3
        · exact absurd (List.mem_singleton.mp h3) hdng
      have h4 : isImageFile p = true := List.elem_eq_true_of_mem h2
      simp [applyToFileRoute, h4]
    · have h1' : lowerExt p ∈ videoExtsApplier := by
        have hv : videoExtsProcessor = videoExtsApplier := rfl
        rw [hv] at h1
        exact h1
      have h4 : isVideoFile p = true := List.elem_eq_true_of_mem h1'
      by_cases h5 : isImageFile p = true
      · simp [applyToFileRoute, h5]
      · simp [applyToFileRoute, h5, h4]
  · intro hdng
    have h4 : isImageFile p = false := by
      unfold isImageFile
      rw [hdng]
      decide
    have h5 : isVideoFile p = false := by
      unfold isVideoFile
      rw [hdng]
      decide
    simp [applyToFileRoute, h4, h5]

/-- Witness for C9_theorem: a supported image and a supported video both
reach an applier branch. -/
theorem C9_theorem_witness :
    applyToFileRoute ("C:\\a\\photo.JPG".toList) ≠ ApplyRoute.unsupported ∧
      applyToFileRoute ("C:\\a\\clip.mp4".toList) ≠ ApplyRoute.unsupported := by
  exact ⟨(C9_theorem ("C:\\a\\photo.JPG".toList) (by decide)).1 (by decide),
    (C9_theorem ("C:\\a\\clip.mp4".toList) (by decide)).1 (by decide)⟩

/-- C9 is false as the claim states it: `photo.dng` is in the supported
media extension set, yet ApplyToFile reaches the unsupported-media-file-
type error branch because the applier's image set lacks `.dng`. -/
theorem C9_counterexample :
    isSupportedMediaFile ("C:\\a\\photo.dng".toList) = true ∧
      isImageFile ("C:\\a\\photo.dng".toList) = false ∧
      isVideoFile ("C:\\a\\photo.dng".toList) = false ∧
      applyToFileRoute ("C:\\a\\photo.dng".toList) = ApplyRoute.unsupported := by
  decide

/-- C10, confirmed.  When the primary sidecar decodes, a supplemental
layer (global or per-file) that exists but fails to decode is skipped
silently: ParseJSON still succeeds, nothing is merged from the malformed
layer, and the other layer is processed exactly as it would have been. -/
theorem C10_theorem (fs : JsonFS) (jsonPath : List Char) (meta : Metadata)
    (hp : fs.decode jsonPath = some meta) :
    (fs.statOk (globalSupplementalPath jsonPath) = true →
      fs.decode (globalSupplementalPath jsonPath) = none →
      ParseJSON fs jsonPath =
        some (if fs.statOk (perFileSupplementalPath jsonPath) then
            match fs.decode (perFileSupplementalPath jsonPath) with
            | some s => mergeMetadata meta s
            | none => meta
          else meta)) ∧
    (fs.statOk (perFileSupplementalPath jsonPath) = true →
      fs.decode (perFileSupplementalPath jsonPath) = none →
      ParseJSON fs jsonPath =
        some (if fs.statOk (globalSupplementalPath jsonPath) then
            match fs.decode (globalSupplementalPath jsonPath) with
            | some s => mergeMetadata meta s
            | none => meta
          else meta)) ∧
    (fs.statOk (globalSupplementalPath jsonPath) = true →
      fs.decode (globalSupplementalPath jsonPath) = none →
      fs.statOk (perFileSupplementalPath jsonPath) = true →
      fs.decode (perFileSupplementalPath jsonPath) = none →
      ParseJSON fs jsonPath = some meta) := by
  refine ⟨?_, ?_, ?_⟩
  · intro h1 h2
    simp [ParseJSON, parseSupplementalJSON, hp, h1, h2]
  · intro h1 h2
    simp [ParseJSON, parseSupplementalJSON, hp, h1, h2]
  · intro h1 h2 h3 h4
    simp [ParseJSON, parseSupplementalJSON, hp, h1, h2, h3, h4]

/-- Witness for C10_theorem: with the global supplemental sidecar present
but malformed and no per-file sidecar, ParseJSON returns the primary
record untouched. -/
theorem C10_theorem_witness :
    ParseJSON malformedGlobalFS ("C:\\a\\photo.jpg.json".toList) = some metaZero := by
  have h := (C10_theorem malformedGlobalFS ("C:\\a\\photo.jpg.json".toList) metaZero
      (by decide)).1 (by decide) (by decide)
  exact h.trans (by decide)

end GTakeout
